import Mathlib

/-!
Verification of the Farmacias Vallenar product-normalization and
bioequivalence engine.

Shallow embedding of the Python sources:
  scripts/smart_match.py      (normalize_text)
  src/modules/drug_parser.py  (DrugParser.parse and its three regexes)
  src/modules/data_manager.py (DataManager._enrich_compliance, _calculate_ppum)
  motor_busqueda.py           (FarmaciaVallenarEngine.buscar, _render_results)
  src/api/main.py             (the min_length=2 query gate of /search)

Strings are modelled as `List Char` with ASCII semantics: `str.upper` is
`Char.toUpper` per character, the regex classes are modelled over their
ASCII meaning (the inputs of this system are upper-case Latin product
descriptions).  Recursions that a regex engine performs by scanning are
written with an explicit fuel argument equal to the length of the text so
that every definition is structural and kernel-reducible.
-/

/-- ASCII code of a character. -/
def cn (c : Char) : Nat := c.toNat

/-- Python regex class `\s` (ASCII): space, tab, newline, CR, VT, FF. -/
def isSpaceChar (c : Char) : Bool := cn c == 32 || (9 ≤ cn c && cn c ≤ 13)

/-- Python regex class `\d` (ASCII digits). -/
def isDigitC (c : Char) : Bool := 48 ≤ cn c && cn c ≤ 57

/-- Upper-case Latin letter A-Z. -/
def isUpperAZ (c : Char) : Bool := 65 ≤ cn c && cn c ≤ 90

/-- Python regex class `\w` (ASCII): letters, digits, underscore. -/
def isWordC (c : Char) : Bool :=
  isUpperAZ c || (97 ≤ cn c && cn c ≤ 122) || isDigitC c || cn c == 95

/-- Characters kept by `re.sub(r'[^A-Z0-9\s]', '', text)` in normalize_text. -/
def allowedIn (c : Char) : Bool := isUpperAZ c || isDigitC c || isSpaceChar c

/-- Characters that may appear in a fully normalized string. -/
def allowedOut (c : Char) : Bool := isUpperAZ c || isDigitC c || cn c == 32

/-- `text.upper()` (ASCII model). -/
def upperL (l : List Char) : List Char := l.map Char.toUpper

/-- Boolean list-prefix test (used to model literal regex tokens). -/
def isPrefixL : List Char → List Char → Bool
  | [], _ => true
  | _ :: _, [] => false
  | a :: as2, b :: bs => a == b && isPrefixL as2 bs

/-- Python substring test `p in t`. -/
def subStr (p : List Char) : List Char → Bool
  | [] => isPrefixL p []
  | c :: r => isPrefixL p (c :: r) || subStr p r

/-- Remove trailing whitespace (right half of Python `str.strip()`). -/
def stripRight : List Char → List Char
  | [] => []
  | c :: rest =>
    match stripRight rest with
    | [] => if isSpaceChar c then [] else [c]
    | r => c :: r

/-- Python `str.strip()`: drop leading and trailing whitespace. -/
def strip (l : List Char) : List Char := stripRight (l.dropWhile isSpaceChar)

/-- One pass of `re.sub(r'\s+', ' ', text)`: every maximal run of
whitespace becomes a single space.  `prevSpace` records whether the
previous input character was part of a whitespace run. -/
def collapseAux (prevSpace : Bool) : List Char → List Char
  | [] => []
  | c :: rest =>
    if isSpaceChar c then
      if prevSpace then collapseAux true rest
      else ' ' :: collapseAux true rest
    else c :: collapseAux false rest

/-- `re.sub(r'\s+', ' ', text)`. -/
def collapseWs (l : List Char) : List Char := collapseAux false l

/-- Word-boundary test for the position after a match: end of string or a
non-word character. -/
def boundaryAt : List Char → Bool
  | [] => true
  | d :: _ => !isWordC d

/-- `re.sub(r'\b' + word + r'\b', '', text)` for a word made of word
characters: remove every non-overlapping whole-word occurrence, scanning
left to right.  `prev` records whether the character preceding the current
position is a word character; fuel bounds the scan length. -/
def removeWordF (w : List Char) : Nat → Bool → List Char → List Char
  | 0, _, t => t
  | _ + 1, _, [] => []
  | fuel + 1, prev, c :: rest =>
    if !prev && !w.isEmpty && isPrefixL w (c :: rest)
        && boundaryAt (List.drop w.length (c :: rest)) then
      removeWordF w fuel true (List.drop w.length (c :: rest))
    else
      c :: removeWordF w fuel (isWordC c) rest

/-- Whole-word removal with enough fuel to scan the entire text. -/
def removeWord (w t : List Char) : List Char := removeWordF w t.length false t

/-- The stop-word list of normalize_text. -/
def stopWords : List (List Char) :=
  ["MG".data, "COMPRIMIDOS".data, "CAPSULAS".data, "JARABE".data, "CM".data,
   "AL".data, "X".data, "CAJA".data, "FRASCO".data]

/-- The stop-word loop of normalize_text: one whole-word `re.sub` per stop
word, in list order. -/
def removeStops (t : List Char) : List Char :=
  stopWords.foldl (fun acc w => removeWord w acc) t

/-- normalize_text on an actual string (scripts/smart_match.py lines 16-32):
uppercase, remove stop words as whole words, strip characters outside
`[A-Z0-9\s]`, collapse whitespace runs, trim. -/
def normalizeStr (t : List Char) : List Char :=
  strip (collapseWs (List.filter allowedIn (removeStops (upperL t))))

/-- normalize_text including the `isinstance(text, str)` guard: a
non-string argument (modelled as `none`) returns the empty string. -/
def normalize_text : Option (List Char) → List Char
  | none => []
  | some s => normalizeStr s

/-- No two adjacent whitespace characters. -/
def noDouble : List Char → Bool
  | [] => true
  | [_] => true
  | a :: b :: rest => !(isSpaceChar a && isSpaceChar b) && noDouble (b :: rest)

/-- The first character, if any, is not whitespace. -/
def headNotSpace : List Char → Bool
  | [] => true
  | c :: _ => !isSpaceChar c

/-- The last character, if any, is not whitespace. -/
def lastNotSpace : List Char → Bool
  | [] => true
  | [c] => !isSpaceChar c
  | _ :: c :: rest => lastNotSpace (c :: rest)

/-- A canonical normalize_text output: only `A–Z`, `0–9` and single
spaces, trimmed at both ends. -/
def canonOut (l : List Char) : Bool :=
  l.all allowedOut && noDouble l && headNotSpace l && lastNotSpace l

/-- Python `text.replace(old, new)`: replace every non-overlapping
occurrence of `old`, scanning left to right (callers never pass an empty
`old`; with an empty `old` this model returns the text unchanged). -/
def replaceAllF (old new : List Char) : Nat → List Char → List Char
  | 0, t => t
  | _ + 1, [] => []
  | fuel + 1, c :: rest =>
    if !old.isEmpty && isPrefixL old (c :: rest) then
      new ++ replaceAllF old new fuel (List.drop old.length (c :: rest))
    else
      c :: replaceAllF old new fuel rest

/-- `text.replace(old, new)` with enough fuel to scan the whole text. -/
def replaceAll (old new t : List Char) : List Char := replaceAllF old new t.length t

/-- The unit alternation of REGEX_DOSIS, in regex alternation order. -/
def doseUnits : List (List Char) :=
  ["MG".data, "G".data, "GR".data, "MCG".data, "ML".data, "%".data, "UI".data,
   "GRS".data]

/-- The container-unit alternation of REGEX_CANTIDAD, in order. -/
def qtyUnits : List (List Char) :=
  ["COMP".data, "CAP".data, "SOBRE".data, "ML".data, "AMPOLLA".data,
   "FRASCO".data, "UNID".data, "UND".data, "DOSIS".data, "G".data]

/-- First alternative of a literal alternation that matches at this
position (regex alternation tries alternatives left to right). -/
def firstLit (alts : List (List Char)) (t : List Char) : Option (List Char) :=
  alts.find? (fun u => isPrefixL u t)

/-- Match `REGEX_DOSIS = (\d+(?:[.,]\d+)?)\s*(MG|G|GR|MCG|ML|%|UI|GRS)` at
the current position.  Returns (group 0, group 1 = number, group 2 = unit).
Greedy matching needs no backtracking here: no unit starts with a digit,
a separator or whitespace.  The working text is always upper-case, so the
IGNORECASE flag is modelled by upper-case literals. -/
def doseAt (t : List Char) : Option (List Char × List Char × List Char) :=
  let d1 := t.takeWhile isDigitC
  if d1.isEmpty then none
  else
    let r1 := t.dropWhile isDigitC
    let frac : List Char :=
      match r1 with
      | s :: r2 =>
        if (s == '.' || s == ',') && !(r2.takeWhile isDigitC).isEmpty then
          s :: r2.takeWhile isDigitC
        else []
      | [] => []
    let num := d1 ++ frac
    let r2 := List.drop frac.length r1
    let sp := r2.takeWhile isSpaceChar
    let r3 := r2.dropWhile isSpaceChar
    match firstLit doseUnits r3 with
    | some u => some (num ++ sp ++ u, num, u)
    | none => none

/-- `re.search` with REGEX_DOSIS: leftmost position wins. -/
def findDose : List Char → Option (List Char × List Char × List Char)
  | [] => none
  | c :: rest =>
    match doseAt (c :: rest) with
    | some m => some m
    | none => findDose rest

/-- The `(\d+)\s*(unit)` tail of REGEX_CANTIDAD after a prefix alternative
consumed `pre`. -/
def qtyCore (pre rest : List Char) : Option (List Char × List Char × List Char) :=
  let d := rest.takeWhile isDigitC
  if d.isEmpty then none
  else
    let r1 := rest.dropWhile isDigitC
    let sp := r1.takeWhile isSpaceChar
    let r2 := r1.dropWhile isSpaceChar
    match firstLit qtyUnits r2 with
    | some u => some (pre ++ d ++ sp ++ u, d, u)
    | none => none

/-- Match `REGEX_CANTIDAD = (?:X\s*|ENV\s*|^|\s)(\d+)\s*(COMP|CAP|SOBRE|ML|
AMPOLLA|FRASCO|UNID|UND|DOSIS|G)` at the current position; the four prefix
alternatives are tried in regex order, `^` only at the start of the
string. -/
def qtyAt (atStart : Bool) (t : List Char) : Option (List Char × List Char × List Char) :=
  (match t with
   | 'X' :: r => qtyCore ('X' :: r.takeWhile isSpaceChar) (r.dropWhile isSpaceChar)
   | _ => none) <|>
  (if isPrefixL "ENV".data t then
    qtyCore ("ENV".data ++ (List.drop 3 t).takeWhile isSpaceChar)
      ((List.drop 3 t).dropWhile isSpaceChar)
   else none) <|>
  (if atStart then qtyCore [] t else none) <|>
  (match t with
   | c :: r => if isSpaceChar c then qtyCore [c] r else none
   | [] => none)

/-- `re.search` with REGEX_CANTIDAD: leftmost position wins; only the
first scanned position is the start of the string. -/
def findQty : Bool → List Char → Option (List Char × List Char × List Char)
  | _, [] => none
  | atStart, c :: rest =>
    match qtyAt atStart (c :: rest) with
    | some m => some m
    | none => findQty false rest

/-- One marker alternative of `REGEX_LAB = (?:LAB\.|LABORATORIO|LAB)\s+(.*)$`:
the marker, at least one whitespace, then everything to the end of the
string as group 1. -/
def labMarker (m t : List Char) : Option (List Char × List Char) :=
  if isPrefixL m t then
    let r := List.drop m.length t
    let sp := r.takeWhile isSpaceChar
    if sp.isEmpty then none
    else some (m ++ sp ++ r.dropWhile isSpaceChar, r.dropWhile isSpaceChar)
  else none

/-- REGEX_LAB at the current position: alternatives in regex order. -/
def labAt (t : List Char) : Option (List Char × List Char) :=
  labMarker "LAB.".data t <|> labMarker "LABORATORIO".data t <|>
    labMarker "LAB".data t

/-- `re.search` with REGEX_LAB: leftmost position wins. -/
def findLab : List Char → Option (List Char × List Char)
  | [] => none
  | c :: rest =>
    match labAt (c :: rest) with
    | some m => some m
    | none => findLab rest

/-- `re.sub(r'\bX\d+\b', '', text)`: remove every whole-word X-digits
token, scanning left to right. -/
def removeXNumF : Nat → Bool → List Char → List Char
  | 0, _, t => t
  | _ + 1, _, [] => []
  | fuel + 1, prev, c :: rest =>
    if !prev && c == 'X' && !(rest.takeWhile isDigitC).isEmpty
        && boundaryAt (rest.dropWhile isDigitC) then
      removeXNumF fuel true (rest.dropWhile isDigitC)
    else
      c :: removeXNumF fuel (isWordC c) rest

/-- `re.sub(r'\bX\d+\b', '', text)` with enough fuel for the whole text. -/
def removeXNum (t : List Char) : List Char := removeXNumF t.length false t

/-- The dict produced by DrugParser.parse.  The non-string branch of the
Python code also stores a `brand_type` key ('UNKNOWN') that the string
branch omits; `brand_type` is `none` on the string branch. -/
structure ParsedProduct where
  original : List Char
  lab : List Char
  dose_val : Option (List Char)
  dose_unit : Option (List Char)
  qty_val : Option (List Char)
  qty_unit : Option (List Char)
  clean_name : List Char
  brand_type : Option (List Char)
deriving DecidableEq

/-- Argument of DrugParser.parse: either an actual string or a non-string
object whose `str()` rendering is the given character list. -/
inductive PyInput where
  | ofStr (s : List Char)
  | nonStr (s : List Char)

/-- Step 0 of parse: `product_name.upper().strip()`. -/
def parseT0 (s : List Char) : List Char := strip (upperL s)

/-- Lab extraction result: `match_lab.group(1).strip()` or the default. -/
def parseLab (t0 : List Char) : List Char :=
  match findLab t0 with
  | some (_, g1) => strip g1
  | none => "NO IDENTIFICADO".data

/-- Working text after lab removal:
`text_bruto.replace(match_lab.group(0), '')`. -/
def parseT1 (t0 : List Char) : List Char :=
  match findLab t0 with
  | some (g0, _) => replaceAll g0 [] t0
  | none => t0

/-- Working text after dose removal:
`text_bruto.replace(match_dosis.group(0), ' ')`. -/
def parseT2 (t1 : List Char) : List Char :=
  match findDose t1 with
  | some (g0, _, _) => replaceAll g0 [' '] t1
  | none => t1

/-- Working text after quantity removal:
`text_bruto.replace(match_cant.group(0), ' ')`. -/
def parseT3 (t2 : List Char) : List Char :=
  match findQty true t2 with
  | some (g0, _, _) => replaceAll g0 [' '] t2
  | none => t2

/-- Clean-up phase of parse (lines 71-78): collapse whitespace, trim,
strip residual `\bX\d+\b` tokens, trim again. -/
def parseClean (t3 : List Char) : List Char :=
  strip (removeXNum (strip (collapseWs t3)))

/-- DrugParser.parse (src/modules/drug_parser.py lines 19-80): guard for
non-string input, upper-case and trim, then extract laboratory, dose and
quantity in that order, each removal done with `str.replace` on the whole
working text, and finally clean up whitespace and stray X-digit tokens. -/
def parse : PyInput → ParsedProduct
  | .nonStr r =>
    { original := r, clean_name := r, brand_type := some "UNKNOWN".data,
      lab := "NO IDENTIFICADO".data, dose_val := none, dose_unit := none,
      qty_val := none, qty_unit := none }
  | .ofStr s =>
    let t0 := parseT0 s
    let t1 := parseT1 t0
    let doseRes := findDose t1
    let t2 := parseT2 t1
    let qtyRes := findQty true t2
    let t3 := parseT3 t2
    { original := t0, lab := parseLab t0,
      dose_val := doseRes.map (fun m => m.2.1),
      dose_unit := doseRes.map (fun m => m.2.2),
      qty_val := qtyRes.map (fun m => m.2.1),
      qty_unit := qtyRes.map (fun m => m.2.2),
      clean_name := parseClean t3,
      brand_type := none }

/-- One entry of the mock ISP registry of DataManager._load_mock_isp_db. -/
structure IspEntry where
  key : List Char
  generics : List (List Char)
  brands : List (List Char)
  active_ingredient : List Char

/-- The mock ISP registry (src/modules/data_manager.py lines 29-66), in
dict insertion order. -/
def isp_db_mock : List IspEntry :=
  [ { key := "ACICLOVIR 200 MG".data,
      generics := ["ACICLOVIR 200 MG".data],
      brands := ["ZOVIRAX 200 MG".data],
      active_ingredient := "ACICLOVIR".data },
    { key := "ACIDO ACETILSALICILICO 100 MG".data,
      generics := ["ACIDO ACETILSALICILICO 100 MG".data],
      brands := ["CARDIOASPIRINA 100".data, "ASPIRINA 100".data],
      active_ingredient := "ACIDO ACETILSALICILICO".data },
    { key := "PARACETAMOL 500 MG".data,
      generics := ["PARACETAMOL 500 MG".data],
      brands := ["PANADOL".data, "KITADOL".data],
      active_ingredient := "PARACETAMOL".data },
    { key := "IBUPROFENO 400 MG".data,
      generics := ["IBUPROFENO 400 MG".data],
      brands := ["IBUPIRAC".data, "ACTRON".data],
      active_ingredient := "IBUPROFENO".data },
    { key := "LOSARTAN 50 MG".data,
      generics := ["LOSARTAN 50 MG".data, "LOSARTAN POTASICO 50 MG".data],
      brands := ["COZAAR".data],
      active_ingredient := "LOSARTAN".data },
    { key := "DIONOGEST 2 MG".data,
      generics := ["DIONOGEST".data],
      brands := ["ACOTOL".data],
      active_ingredient := "DIONOGEST + ETINILESTRADIOL".data } ]

/-- The name _enrich_compliance classifies: the upper-cased clean_name, or
the upper-cased raw product name when the clean name is empty. -/
def effName (cleanName producto : List Char) : List Char :=
  if upperL cleanName = [] then upperL producto else upperL cleanName

/-- Regulatory flags attached by _enrich_compliance. -/
structure EnrichedFlags where
  active_ingredient : List Char
  is_bioequivalent : Bool
  is_generic : Bool
deriving DecidableEq

/-- DataManager._enrich_compliance (src/modules/data_manager.py lines
92-158), difflib fallback branch (FUZZY_AVAILABLE = False): exact
key-substring lookup over the registry keys in order, then reverse brand
lookup; generic detection by ingredient containment, the COMPUESTO
exclusion and the startswith ratio (100 when the name starts with the
ingredient, else 0, accepted when above 60); a brand contained in the name
forces bioequivalent true and generic false.  The rapidfuzz branch
replaces the two lookups by the external token_set_ratio scorer and is not
modelled.  The Calculated_PPUM column the row also receives is modelled
separately by calculate_ppum. -/
def enrich_compliance (cleanName producto : List Char) : EnrichedFlags :=
  let name := effName cleanName producto
  let bm := match isp_db_mock.find? (fun e => subStr e.key name) with
    | some e => some e
    | none => isp_db_mock.find? (fun e => e.brands.any (fun b => subStr b name))
  match bm with
  | none =>
    { active_ingredient := "DESCONOCIDO".data, is_bioequivalent := false,
      is_generic := false }
  | some e =>
    let ai := e.active_ingredient
    let genBio : Bool × Bool :=
      if subStr ai name && !subStr "COMPUESTO".data name then
        let ratio : Nat := if isPrefixL ai name then 100 else 0
        if 60 < ratio then (true, true) else (false, false)
      else (false, false)
    let genBio2 : Bool × Bool :=
      if e.brands.any (fun b => subStr b name) then (false, true) else genBio
    { active_ingredient := ai, is_bioequivalent := genBio2.2,
      is_generic := genBio2.1 }

/-- A Python value fed to numeric coercion: a string, a number, or None. -/
inductive PVal where
  | pstr (s : List Char)
  | pnum (q : Rat)
  | pnone

/-- Value of a digit string. -/
def natOfDigits (l : List Char) : Nat := l.foldl (fun n c => 10 * n + (cn c - 48)) 0

/-- Kernel-computable rational subtraction (Rat.sub of the library is
irreducible; this is the same value, see qsub_eq_sub). -/
def qsub (a b : Rat) : Rat :=
  Rat.divInt (a.num * (b.den : Int) - b.num * (a.den : Int))
    ((a.den : Int) * (b.den : Int))

/-- Kernel-computable rational division (same value as Rat.div, see
qdiv_eq_div). -/
def qdiv (a b : Rat) : Rat :=
  Rat.divInt (a.num * (b.den : Int)) ((a.den : Int) * b.num)

/-- Model of Python `float(string)` for decimal literals: optional
surrounding whitespace, optional sign, `digits[.digits]`, `digits.` or
`.digits`, optional exponent; exact rational value.  Underscore digit
separators, inf and nan are outside the model. -/
def pyFloat (s0 : List Char) : Option Rat :=
  let s := strip s0
  let sgnStr : Int × List Char :=
    match s with
    | '-' :: r => (-1, r)
    | '+' :: r => (1, r)
    | _ => (1, s)
  let d1 := sgnStr.2.takeWhile isDigitC
  let r1 := sgnStr.2.dropWhile isDigitC
  let fracStr : List Char × List Char :=
    match r1 with
    | '.' :: r => (r.takeWhile isDigitC, r.dropWhile isDigitC)
    | _ => ([], r1)
  if d1.isEmpty && fracStr.1.isEmpty then none
  else
    let fl := fracStr.1.length
    let mantNum : Int :=
      sgnStr.1 * ((natOfDigits d1 : Int) * 10 ^ fl + (natOfDigits fracStr.1 : Int))
    match fracStr.2 with
    | [] => some (Rat.divInt mantNum (10 ^ fl))
    | e :: r3 =>
      if e == 'e' || e == 'E' then
        let esgn : Bool × List Char :=
          match r3 with
          | '-' :: r => (true, r)
          | '+' :: r => (false, r)
          | _ => (false, r3)
        let ed := esgn.2.takeWhile isDigitC
        if ed.isEmpty || !(esgn.2.dropWhile isDigitC).isEmpty then none
        else
          let ex := natOfDigits ed
          if esgn.1 then some (Rat.divInt mantNum (10 ^ fl * 10 ^ ex))
          else some (Rat.divInt (mantNum * 10 ^ ex) (10 ^ fl))
      else none

/-- Python round-half-to-even of a rational to an integer, written with
integer arithmetic only: `f` is the floor, `rem2` is twice the fractional
part scaled by the denominator, so `rem2 < den` means fraction below one
half. -/
def halfEvenZ (q : Rat) : Int :=
  let f := Int.fdiv q.num (q.den : Int)
  let rem2 := 2 * (q.num - f * (q.den : Int))
  if rem2 < (q.den : Int) then f
  else if (q.den : Int) < rem2 then f + 1
  else if f % 2 = 0 then f else f + 1

/-- Python `round(x, 2)` (exact-rational model of the float rounding):
half-even rounding of `100 x`, divided by 100. -/
def round2 (q : Rat) : Rat :=
  Rat.divInt (halfEvenZ (Rat.divInt (q.num * 100) (q.den : Int))) 100

/-- Model of `float(value)`: TypeError on None, ValueError on a bad
string. -/
def floatOfVal : PVal → Option Rat
  | .pnum q => some q
  | .pnone => none
  | .pstr s => pyFloat s

/-- Model of `float(str(value).replace(',', '.'))` used for the price:
`str` of a number round-trips through `float` and contains no comma;
`str(None)` is "None", which float rejects. -/
def floatOfStrComma : PVal → Option Rat
  | .pnum q => some q
  | .pnone => pyFloat "None".data
  | .pstr s => pyFloat (s.map (fun c => if c == ',' then '.' else c))

/-- DataManager._calculate_ppum (src/modules/data_manager.py lines
160-171) with the try/except control flow made explicit: coerce the price
(through str and the comma swap) and then the quantity; inside the try the
rounded ratio is returned only when the quantity is positive; a coercion
failure or the fall-through returns 0. -/
def calculate_ppum (precioVenta qtyVal : PVal) : Rat :=
  let body : Except Unit (Option Rat) :=
    match floatOfStrComma precioVenta with
    | none => Except.error ()
    | some price =>
      match floatOfVal qtyVal with
      | none => Except.error ()
      | some qty =>
        if 0 < qty then Except.ok (some (round2 (qdiv price qty)))
        else Except.ok none
  match body with
  | .ok (some r) => r
  | .ok none => 0
  | .error _ => 0


/-- One inventory row as FarmaciaVallenarEngine.buscar sees it after
DataManager.load_data: the parsed clean name, the enrichment columns and
the CSV columns the engine reads. -/
structure InvRow where
  clean_name : List Char
  active_ingredient : List Char
  stock : Int
  precio : Rat
  is_generic : Bool
  is_bioequivalent : Bool
  ppum : Rat
deriving DecidableEq

/-- A row together with the Rank column buscar assigns. -/
structure RankedRow where
  row : InvRow
  rank : Nat
deriving DecidableEq

/-- calculate_rank (motor_busqueda.py lines 67-77): first matching rule
wins; the rank-3 test is a case-sensitive containment of the upper-cased
query in the clean name. -/
def calculate_rank (query : List Char) (r : InvRow) : Nat :=
  if r.is_generic && r.is_bioequivalent then 1
  else if r.is_bioequivalent then 2
  else if subStr query r.clean_name then 3
  else 4

/-- The sort key of line 82, `(Rank ascending, price ascending)`, as a
Boolean total preorder. -/
def rankPriceLe (a b : RankedRow) : Bool :=
  decide (a.rank < b.rank) ||
    ((a.rank == b.rank) && decide (a.row.precio ≤ b.row.precio))

/-- The sort key is total. -/
instance rankPriceLe_isTotal :
    IsTotal RankedRow (fun a b => rankPriceLe a b = true) := by
  constructor
  intro a b
  simp only [rankPriceLe, Bool.or_eq_true, Bool.and_eq_true, decide_eq_true_eq,
    beq_iff_eq]
  rcases Nat.lt_trichotomy a.rank b.rank with h | h | h
  · exact Or.inl (Or.inl h)
  · rcases le_total a.row.precio b.row.precio with hp | hp
    · exact Or.inl (Or.inr ⟨h, hp⟩)
    · exact Or.inr (Or.inr ⟨h.symm, hp⟩)
  · exact Or.inr (Or.inl h)

/-- The sort key is transitive. -/
instance rankPriceLe_isTrans :
    IsTrans RankedRow (fun a b => rankPriceLe a b = true) := by
  constructor
  intro a b c hab hbc
  simp only [rankPriceLe, Bool.or_eq_true, Bool.and_eq_true, decide_eq_true_eq,
    beq_iff_eq] at hab hbc ⊢
  rcases hab with h1 | ⟨h1, h1p⟩ <;> rcases hbc with h2 | ⟨h2, h2p⟩
  · exact Or.inl (Nat.lt_trans h1 h2)
  · exact Or.inl (h2 ▸ h1)
  · exact Or.inl (h1 ▸ h2)
  · exact Or.inr ⟨h1.trans h2, le_trans h1p h2p⟩


/-- `Series.str.contains(query, case=False)` for a pattern without regex
metacharacters: case-insensitive substring test. -/
def containsCI (q s : List Char) : Bool := subStr (upperL q) (upperL s)

/-- Outcome of buscar: the no-match report of line 40, or the sorted
ranked rows handed to _render_results. -/
inductive SearchOutcome where
  | noMatch
  | results (rs : List RankedRow)
deriving DecidableEq

/-- FarmaciaVallenarEngine.buscar (motor_busqueda.py lines 31-84):
upper-case and trim the query, keep the rows whose clean name contains it
(case-insensitively), report no match when none does; otherwise resolve
the active ingredient of the first match, collect the substitute set (all
rows with that ingredient and positive stock, or the name matches
themselves when the ingredient is DESCONOCIDO), attach calculate_rank and
sort by rank then price.  pandas sort_values is modelled by a stable
insertion sort on the same key. -/
def buscar (rawQuery : List Char) (df : List InvRow) : SearchOutcome :=
  let query := strip (upperL rawQuery)
  let matchRows := df.filter (fun r => containsCI query r.clean_name)
  match matchRows with
  | [] => .noMatch
  | target :: _ =>
    let alternatives :=
      if target.active_ingredient = "DESCONOCIDO".data then matchRows
      else df.filter (fun r =>
        r.active_ingredient == target.active_ingredient && decide (0 < r.stock))
    let ranked : List RankedRow :=
      alternatives.map (fun r => { row := r, rank := calculate_rank query r })
    .results (List.insertionSort (fun a b => rankPriceLe a b = true) ranked)

/-- Reference price of _render_results (motor_busqueda.py lines 92-93):
the price of the first row in sort order whose clean name contains the
query, else the price of the first row; none only on an empty result list
(where the Python code would raise IndexError on `iloc[0]`). -/
def ref_price (results : List RankedRow) (originalQuery : List Char) : Option Rat :=
  match results.filter (fun r => subStr originalQuery r.row.clean_name) with
  | r :: _ => some r.row.precio
  | [] =>
    match results with
    | r :: _ => some r.row.precio
    | [] => none

/-- Savings figure of the render loop (lines 100-106): a SAVE amount is
printed only for rank-1 rows and only when the reference price exceeds the
row price; every other row shows no savings figure. -/
def ahorro (results : List RankedRow) (originalQuery : List Char)
    (r : RankedRow) : Option Rat :=
  match ref_price results originalQuery with
  | none => none
  | some rp =>
    if r.rank == 1 && decide (r.row.precio < rp) then some (qsub rp r.row.precio)
    else none

/-- The `Query(..., min_length=2)` gate of GET /search (src/api/main.py
line 47): FastAPI rejects shorter query strings with a validation error
before search_products runs. -/
def api_min_length_ok (q : List Char) : Bool := decide (2 ≤ q.length)

/-- Demo inventory row: an in-registry generic (the spec scenario A). -/
def rowA : InvRow :=
  { clean_name := "PARACETAMOL 500 MG".data,
    active_ingredient := "PARACETAMOL".data, stock := 5, precio := 1000,
    is_generic := true, is_bioequivalent := true, ppum := 0 }

/-- Demo inventory row: a bioequivalent brand (scenario B). -/
def rowB : InvRow :=
  { clean_name := "KITADOL 500".data,
    active_ingredient := "PARACETAMOL".data, stock := 3, precio := 900,
    is_generic := false, is_bioequivalent := true, ppum := 0 }

/-- Demo inventory row: the requested-only product (scenario C). -/
def rowC : InvRow :=
  { clean_name := "PARACETAMOL FORTE".data,
    active_ingredient := "PARACETAMOL".data, stock := 2, precio := 500,
    is_generic := false, is_bioequivalent := false, ppum := 0 }

/-- Demo inventory: the ranking scenario of the specification (generic
1000, brand 900, requested-only 500). -/
def demoRows : List InvRow := [rowA, rowB, rowC]

/-- The ranked result buscar produces on the demo inventory. -/
def demoRanked : List RankedRow :=
  [{ row := rowA, rank := 1 }, { row := rowB, rank := 2 },
   { row := rowC, rank := 3 }]

/-- Demo render row: an expensive requested product used as the savings
reference. -/
def rowD : InvRow :=
  { clean_name := "PARACETAMOL FORTE".data,
    active_ingredient := "PARACETAMOL".data, stock := 1, precio := 2000,
    is_generic := false, is_bioequivalent := false, ppum := 0 }

/-- Demo result list for the render stage. -/
def renderDemo : List RankedRow :=
  [{ row := rowA, rank := 1 }, { row := rowD, rank := 3 }]


lemma eq_space_of_cn (c : Char) (h : cn c = 32) : c = ' ' := by
  have h2 : Char.ofNat (Char.toNat c) = Char.ofNat 32 := by
    simpa [cn, Char.toNat] using congrArg Char.ofNat h
  rw [Char.ofNat_toNat] at h2
  exact h2

lemma toUpper_fixed (c : Char) (h : allowedOut c = true) : c.toUpper = c := by
  simp only [allowedOut, isUpperAZ, isDigitC, cn, Bool.or_eq_true, Bool.and_eq_true,
    decide_eq_true_eq, beq_iff_eq] at h
  simp only [Char.toUpper]
  rw [if_neg]
  omega

lemma upperL_fixed (l : List Char) (h : ∀ c ∈ l, allowedOut c = true) :
    upperL l = l := by
  induction l with
  | nil => rfl
  | cons c rest ih =>
    have h1 := toUpper_fixed c (h c (by simp))
    have h2 := ih (fun d hd => h d (by simp [hd]))
    simp only [upperL, List.map_cons] at h2 ⊢
    rw [h1, h2]

lemma noDouble_cons (x : Char) (t : List Char) :
    noDouble (x :: t) = ((!isSpaceChar x || headNotSpace t) && noDouble t) := by
  cases t <;> simp [noDouble, headNotSpace]

lemma noDouble_tail (c : Char) (l : List Char) (h : noDouble (c :: l) = true) :
    noDouble l = true := by
  rw [noDouble_cons, Bool.and_eq_true] at h
  exact h.2

lemma noDouble_append_left (xs ys : List Char)
    (h : noDouble (xs ++ ys) = true) : noDouble xs = true := by
  induction xs with
  | nil => rfl
  | cons a t ih =>
    rw [List.cons_append, noDouble_cons, Bool.and_eq_true] at h
    rw [noDouble_cons, Bool.and_eq_true]
    refine ⟨?_, ih h.2⟩
    rcases Bool.or_eq_true _ _ |>.mp h.1 with h1 | h1
    · exact Bool.or_eq_true _ _ |>.mpr (Or.inl h1)
    · cases t with
      | nil => simp [headNotSpace]
      | cons b t2 =>
        rw [List.cons_append] at h1
        exact Bool.or_eq_true _ _ |>.mpr (Or.inr h1)

lemma noDouble_append_right (xs ys : List Char)
    (h : noDouble (xs ++ ys) = true) : noDouble ys = true := by
  induction xs with
  | nil => exact h
  | cons a t ih =>
    rw [List.cons_append] at h
    exact ih (noDouble_tail _ _ h)

lemma mem_collapseAux (b : Bool) (l : List Char) (c : Char)
    (h : c ∈ collapseAux b l) : c = ' ' ∨ (c ∈ l ∧ isSpaceChar c = false) := by
  induction l generalizing b with
  | nil => simp [collapseAux] at h
  | cons d rest ih =>
    by_cases hd : isSpaceChar d = true
    · cases b with
      | true =>
        simp only [collapseAux, hd, if_true] at h
        rcases ih true h with h1 | ⟨h1, h2⟩
        · exact Or.inl h1
        · exact Or.inr ⟨by simp [h1], h2⟩
      | false =>
        simp only [collapseAux, hd, if_true] at h
        rcases List.mem_cons.mp h with h1 | h1
        · exact Or.inl h1
        · rcases ih true h1 with h2 | ⟨h2, h3⟩
          · exact Or.inl h2
          · exact Or.inr ⟨by simp [h2], h3⟩
    · simp only [collapseAux, hd, if_false, Bool.not_eq_true] at h
      rcases List.mem_cons.mp h with h1 | h1
      · subst h1
        exact Or.inr ⟨by simp, Bool.not_eq_true _ |>.mp (by simp [hd])⟩
      · rcases ih false h1 with h2 | ⟨h2, h3⟩
        · exact Or.inl h2
        · exact Or.inr ⟨by simp [h2], h3⟩

lemma headNotSpace_collapseAux_true (l : List Char) :
    headNotSpace (collapseAux true l) = true := by
  induction l with
  | nil => rfl
  | cons d rest ih =>
    by_cases hd : isSpaceChar d = true
    · simpa [collapseAux, hd] using ih
    · simp [collapseAux, hd, headNotSpace]

lemma noDouble_collapseAux (l : List Char) (b : Bool) :
    noDouble (collapseAux b l) = true := by
  induction l generalizing b with
  | nil => rfl
  | cons d rest ih =>
    by_cases hd : isSpaceChar d = true
    · cases b with
      | true => simpa [collapseAux, hd] using ih true
      | false =>
        have h1 : collapseAux false (d :: rest) = ' ' :: collapseAux true rest := by
          simp [collapseAux, hd]
        rw [h1, noDouble_cons, Bool.and_eq_true]
        exact ⟨by simp [headNotSpace_collapseAux_true], ih true⟩
    · have h1 : collapseAux b (d :: rest) = d :: collapseAux false rest := by
        simp [collapseAux, hd]
      rw [h1, noDouble_cons, Bool.and_eq_true]
      exact ⟨by simp [hd], ih false⟩

lemma dropWhile_headNotSpace (l : List Char) :
    headNotSpace (l.dropWhile isSpaceChar) = true := by
  induction l with
  | nil => rfl
  | cons c rest ih =>
    by_cases hc : isSpaceChar c = true
    · simpa [List.dropWhile, hc] using ih
    · simp [List.dropWhile, hc, headNotSpace]

lemma stripRight_prefix (l : List Char) : ∃ suf, l = stripRight l ++ suf := by
  induction l with
  | nil => exact ⟨[], rfl⟩
  | cons c rest ih =>
    rcases ih with ⟨s, hs⟩
    cases h : stripRight rest with
    | nil =>
      by_cases hc : isSpaceChar c = true
      · exact ⟨c :: rest, by simp [stripRight, h, hc]⟩
      · refine ⟨rest, by simp [stripRight, h, hc]⟩
    | cons d r2 =>
      refine ⟨s, ?_⟩
      simp only [stripRight, h]
      rw [← h]
      simpa using hs

lemma stripRight_lastNotSpace (l : List Char) :
    lastNotSpace (stripRight l) = true := by
  induction l with
  | nil => rfl
  | cons c rest ih =>
    cases h : stripRight rest with
    | nil =>
      by_cases hc : isSpaceChar c = true
      · simp [stripRight, h, hc, lastNotSpace]
      · simp [stripRight, h, hc, lastNotSpace]
    | cons d r2 =>
      rw [h] at ih
      have h1 : stripRight (c :: rest) = c :: d :: r2 := by
        simp only [stripRight, h]
      rw [h1]
      simpa [lastNotSpace] using ih

lemma stripRight_id (l : List Char) (h : lastNotSpace l = true) :
    stripRight l = l := by
  induction l with
  | nil => rfl
  | cons c rest ih =>
    cases rest with
    | nil =>
      simp only [lastNotSpace, Bool.not_eq_true'] at h
      simp [stripRight, h]
    | cons d r2 =>
      have h2 : lastNotSpace (d :: r2) = true := by simpa [lastNotSpace] using h
      have h3 := ih h2
      calc stripRight (c :: d :: r2)
          = (match stripRight (d :: r2) with
             | [] => if isSpaceChar c = true then [] else [c]
             | r => c :: r) := rfl
        _ = c :: d :: r2 := by rw [h3]

lemma collapseAux_id (l : List Char) (hall : ∀ c ∈ l, allowedOut c = true)
    (hnd : noDouble l = true) :
    collapseAux false l = l ∧ (headNotSpace l = true → collapseAux true l = l) := by
  induction l with
  | nil => exact ⟨rfl, fun _ => rfl⟩
  | cons c rest ih =>
    have hallr : ∀ d ∈ rest, allowedOut d = true := fun d hd => hall d (by simp [hd])
    have hndr : noDouble rest = true := noDouble_tail _ _ hnd
    rcases ih hallr hndr with ⟨ih1, ih2⟩
    by_cases hc : isSpaceChar c = true
    · have hsp : c = ' ' := by
        have := hall c (by simp)
        simp only [allowedOut, isUpperAZ, isDigitC, Bool.or_eq_true, Bool.and_eq_true,
          decide_eq_true_eq, beq_iff_eq] at this
        simp only [isSpaceChar, Bool.or_eq_true, Bool.and_eq_true,
          decide_eq_true_eq, beq_iff_eq] at hc
        exact eq_space_of_cn c (by omega)
    -- from noDouble (c :: rest) with c whitespace, rest starts non-whitespace
      have hhr : headNotSpace rest = true := by
        rw [noDouble_cons, Bool.and_eq_true, Bool.or_eq_true] at hnd
        rcases hnd.1 with h1 | h1
        · rw [hc] at h1; cases h1
        · exact h1
      constructor
      · have h1 : collapseAux false (c :: rest) = ' ' :: collapseAux true rest := by
          simp [collapseAux, hc]
        rw [h1, ih2 hhr, hsp]
      · intro hh
        simp only [headNotSpace, hc, Bool.not_true] at hh
        cases hh
    · constructor
      · have h1 : collapseAux false (c :: rest) = c :: collapseAux false rest := by
          simp [collapseAux, hc]
        rw [h1, ih1]
      · intro _
        have h1 : collapseAux true (c :: rest) = c :: collapseAux false rest := by
          simp [collapseAux, hc]
        rw [h1, ih1]

lemma dropWhile_id_of_headNotSpace (l : List Char) (h : headNotSpace l = true) :
    l.dropWhile isSpaceChar = l := by
  cases l with
  | nil => rfl
  | cons c rest =>
    simp only [headNotSpace, Bool.not_eq_true'] at h
    simp [List.dropWhile, h]

lemma strip_id (l : List Char) (hh : headNotSpace l = true)
    (hl : lastNotSpace l = true) : strip l = l := by
  unfold strip
  rw [dropWhile_id_of_headNotSpace l hh, stripRight_id l hl]

/-- The output of normalize_text is always canonical: characters in
`[A-Z0-9 ]`, no double spaces, trimmed. -/
lemma normalizeStr_canonical (l : List Char) : canonOut (normalizeStr l) = true := by
  unfold normalizeStr collapseWs
  set m := List.filter allowedIn (removeStops (upperL l)) with hm
  set w := collapseAux false m with hw
  set d := w.dropWhile isSpaceChar with hd
  -- the final string is stripRight d, a prefix of d, which is a suffix of w
  rcases stripRight_prefix d with ⟨suf, hsuf⟩
  have hdw : List.takeWhile isSpaceChar w ++ d = w := List.takeWhile_append_dropWhile _ _
  have hmemw : ∀ c ∈ strip w, c ∈ w := by
    intro c hc
    unfold strip at hc
    rw [← hd] at hc
    have h1 : c ∈ d := by rw [hsuf]; exact List.mem_append_left _ hc
    rw [← hdw]
    exact List.mem_append_right _ h1
  have hall : ∀ c ∈ strip w, allowedOut c = true := by
    intro c hc
    rcases mem_collapseAux false m c (hmemw c hc) with h1 | ⟨h1, h2⟩
    · rw [h1]; rfl
    · have h3 := (List.mem_filter.mp h1).2
      simp only [allowedIn, Bool.or_eq_true] at h3
      rcases h3 with (h3 | h3) | h3
      · simp [allowedOut, h3]
      · simp [allowedOut, h3]
      · simp [h2] at h3
  have hnd : noDouble (strip w) = true := by
    have h1 : noDouble w = true := noDouble_collapseAux m false
    have h2 : noDouble d = true := by
      rw [← hdw] at h1
      exact noDouble_append_right _ _ h1
    rw [hsuf] at h2
    unfold strip
    rw [← hd]
    exact noDouble_append_left _ _ h2
  have hhead : headNotSpace (strip w) = true := by
    unfold strip
    rw [← hd]
    cases hsr : stripRight d with
    | nil => rfl
    | cons c r =>
      have h1 : d = (c :: r) ++ suf := by rw [← hsr]; exact hsuf
      have h2 := dropWhile_headNotSpace w
      rw [← hd, h1] at h2
      simpa [headNotSpace] using h2
  have hlast : lastNotSpace (strip w) = true := stripRight_lastNotSpace d
  simp only [canonOut, Bool.and_eq_true, List.all_eq_true]
  exact ⟨⟨⟨hall, hnd⟩, hhead⟩, hlast⟩

lemma allowedIn_of_allowedOut (c : Char) (h : allowedOut c = true) :
    allowedIn c = true := by
  simp only [allowedOut, Bool.or_eq_true, beq_iff_eq] at h
  rcases h with (h | h) | h
  · simp [allowedIn, h]
  · simp [allowedIn, h]
  · simp [allowedIn, isSpaceChar, h]

/-- C10: for every string input, normalize_text returns a string containing
only the characters A-Z, 0-9 and the space, with no leading or trailing
whitespace and no two consecutive spaces; for every non-string input it
returns the empty string. -/
theorem C10_normalize_output_canonical :
    (∀ l : List Char, canonOut (normalize_text (some l)) = true) ∧
    normalize_text none = [] :=
  ⟨fun l => normalizeStr_canonical l, rfl⟩

/-- C4 counterexample: normalize_text is not idempotent.  On the input
"M.G" the first pass strips the dot and produces "MG", which the second
pass removes as the stop word MG, yielding the empty string. -/
theorem C4_normalize_not_idempotent :
    normalize_text (some (normalize_text (some "M.G".data))) ≠
      normalize_text (some "M.G".data) := by decide

/-- C4 amended: normalize(normalize(x)) = normalize(x) holds for every x
whose normalized form is left unchanged by the stop-word removal pass
(stripping punctuation can reassemble a stop word, which only a second
pass removes). -/
theorem C4_normalize_idempotent_of_stopfree :
    ∀ l : List Char,
      removeStops (normalize_text (some l)) = normalize_text (some l) →
      normalize_text (some (normalize_text (some l))) = normalize_text (some l) := by
  intro l h
  simp only [normalize_text] at h ⊢
  have hc := normalizeStr_canonical l
  simp only [canonOut, Bool.and_eq_true, List.all_eq_true] at hc
  obtain ⟨⟨⟨hall, hnd⟩, hhead⟩, hlast⟩ := hc
  set z := normalizeStr l with hz
  show normalizeStr z = z
  unfold normalizeStr collapseWs
  rw [upperL_fixed z hall, h,
    List.filter_eq_self.mpr (fun c hc2 => allowedIn_of_allowedOut c (hall c hc2)),
    (collapseAux_id z hall hnd).1, strip_id z hhead hlast]

/-- Witness for the amended C4 on a concrete input. -/
theorem C4_normalize_idempotent_of_stopfree_witness :
    removeStops (normalize_text (some "HOLA MUNDO".data)) =
        normalize_text (some "HOLA MUNDO".data) ∧
      normalize_text (some (normalize_text (some "HOLA MUNDO".data))) =
        normalize_text (some "HOLA MUNDO".data) :=
  ⟨by decide, C4_normalize_idempotent_of_stopfree _ (by decide)⟩

lemma toUpper_idem (c : Char) : c.toUpper.toUpper = c.toUpper := by
  simp only [Char.toUpper]
  by_cases h : c.toNat ≥ 97 ∧ c.toNat ≤ 122
  · rw [if_pos h]
    have hv : (c.toNat - 32).isValidChar := by
      simp only [Nat.isValidChar, UInt32.isValidChar]
      omega
    have ht : (Char.ofNat (c.toNat - 32)).toNat = c.toNat - 32 := by
      unfold Char.ofNat
      rw [dif_pos hv]
      simp [Char.ofNatAux, Char.toNat, UInt32.toNat, BitVec.toNat_ofNatLt]
    rw [if_neg (by omega :
      ¬((Char.ofNat (c.toNat - 32)).toNat ≥ 97 ∧ (Char.ofNat (c.toNat - 32)).toNat ≤ 122))]
  · rw [if_neg h, if_neg h]

lemma mem_stripRight (t : List Char) (c : Char) (h : c ∈ stripRight t) : c ∈ t := by
  rcases stripRight_prefix t with ⟨suf, hs⟩
  rw [hs]
  exact List.mem_append_left _ h

lemma mem_strip (t : List Char) (c : Char) (h : c ∈ strip t) : c ∈ t := by
  unfold strip at h
  have h1 := mem_stripRight _ _ h
  rw [← List.takeWhile_append_dropWhile isSpaceChar t]
  exact List.mem_append_right _ h1

lemma mem_replaceAllF (old new : List Char) (fuel : Nat) (t : List Char) (c : Char)
    (h : c ∈ replaceAllF old new fuel t) : c ∈ t ∨ c ∈ new := by
  induction fuel generalizing t with
  | zero => exact Or.inl h
  | succ n ih =>
    cases t with
    | nil => simp [replaceAllF] at h
    | cons d rest =>
      by_cases hc : (!old.isEmpty && isPrefixL old (d :: rest)) = true
      · simp only [replaceAllF, hc, if_true] at h
        rcases List.mem_append.mp h with h1 | h1
        · exact Or.inr h1
        · rcases ih _ h1 with h2 | h2
          · exact Or.inl (List.drop_subset _ _ h2)
          · exact Or.inr h2
      · simp only [replaceAllF, hc, if_false, Bool.not_eq_true] at h
        rcases List.mem_cons.mp h with h1 | h1
        · exact Or.inl (by simp [h1])
        · rcases ih _ h1 with h2 | h2
          · exact Or.inl (by simp [h2])
          · exact Or.inr h2

lemma mem_removeXNumF (fuel : Nat) (b : Bool) (t : List Char) (c : Char)
    (h : c ∈ removeXNumF fuel b t) : c ∈ t := by
  induction fuel generalizing b t with
  | zero => exact h
  | succ n ih =>
    cases t with
    | nil => simp [removeXNumF] at h
    | cons d rest =>
      by_cases hc : (!b && d == 'X' && !(rest.takeWhile isDigitC).isEmpty
          && boundaryAt (rest.dropWhile isDigitC)) = true
      · simp only [removeXNumF, hc, if_true] at h
        have h1 := ih _ _ h
        have h2 : c ∈ rest := by
          rw [← List.takeWhile_append_dropWhile isDigitC rest]
          exact List.mem_append_right _ h1
        simp [h2]
      · simp only [removeXNumF, hc, if_false, Bool.not_eq_true] at h
        rcases List.mem_cons.mp h with h1 | h1
        · simp [h1]
        · simp [ih _ _ h1]

lemma headNotSpace_strip (l : List Char) : headNotSpace (strip l) = true := by
  unfold strip
  cases hsr : stripRight (l.dropWhile isSpaceChar) with
  | nil => rfl
  | cons c r =>
    rcases stripRight_prefix (l.dropWhile isSpaceChar) with ⟨suf, hsuf⟩
    rw [hsr] at hsuf
    have h2 := dropWhile_headNotSpace l
    rw [hsuf] at h2
    simpa [headNotSpace] using h2

lemma strip_idem (l : List Char) : strip (strip l) = strip l :=
  strip_id _ (headNotSpace_strip l) (stripRight_lastNotSpace _)

lemma upperL_eq_self (l : List Char) (h : ∀ c ∈ l, c.toUpper = c) :
    upperL l = l := by
  induction l with
  | nil => rfl
  | cons c rest ih =>
    have h2 := ih (fun d hd => h d (by simp [hd]))
    simp only [upperL, List.map_cons] at h2 ⊢
    rw [h c (by simp), h2]

lemma upFixed_parseT0 (s : List Char) : ∀ c ∈ parseT0 s, c.toUpper = c := by
  intro c hc
  have h1 := mem_strip _ _ hc
  rcases List.mem_map.mp h1 with ⟨d, _, hd2⟩
  rw [← hd2]
  exact toUpper_idem d

lemma upFixed_replaceAll (g t : List Char) (new : List Char)
    (hnew : ∀ c ∈ new, c.toUpper = c) (h : ∀ c ∈ t, c.toUpper = c) :
    ∀ c ∈ replaceAll g new t, c.toUpper = c := by
  intro c hc
  rcases mem_replaceAllF _ _ _ _ _ hc with h1 | h1
  · exact h c h1
  · exact hnew c h1

lemma upFixed_parseT1 (t0 : List Char) (h : ∀ c ∈ t0, c.toUpper = c) :
    ∀ c ∈ parseT1 t0, c.toUpper = c := by
  unfold parseT1
  cases findLab t0 with
  | none => exact h
  | some m => exact upFixed_replaceAll m.1 t0 [] (by simp) h

lemma upFixed_parseT2 (t1 : List Char) (h : ∀ c ∈ t1, c.toUpper = c) :
    ∀ c ∈ parseT2 t1, c.toUpper = c := by
  unfold parseT2
  cases findDose t1 with
  | none => exact h
  | some m => exact upFixed_replaceAll m.1 t1 [' '] (by decide) h

lemma upFixed_parseT3 (t2 : List Char) (h : ∀ c ∈ t2, c.toUpper = c) :
    ∀ c ∈ parseT3 t2, c.toUpper = c := by
  unfold parseT3
  cases findQty true t2 with
  | none => exact h
  | some m => exact upFixed_replaceAll m.1 t2 [' '] (by decide) h

lemma upFixed_parseClean (t3 : List Char) (h : ∀ c ∈ t3, c.toUpper = c) :
    ∀ c ∈ parseClean t3, c.toUpper = c := by
  intro c hc
  unfold parseClean at hc
  have h1 := mem_strip _ _ hc
  have h2 := mem_removeXNumF _ _ _ _ h1
  have h3 := mem_strip _ _ h2
  rcases mem_collapseAux false _ _ h3 with h4 | ⟨h4, _⟩
  · rw [h4]; decide
  · exact h c h4

lemma clean_name_upFixed (s : List Char) :
    ∀ c ∈ (parse (.ofStr s)).clean_name, c.toUpper = c := by
  have e : (parse (.ofStr s)).clean_name =
      parseClean (parseT3 (parseT2 (parseT1 (parseT0 s)))) := rfl
  rw [e]
  exact upFixed_parseClean _ (upFixed_parseT3 _ (upFixed_parseT2 _
    (upFixed_parseT1 _ (upFixed_parseT0 s))))

lemma strip_parseClean (t : List Char) : strip (parseClean t) = parseClean t := by
  unfold parseClean
  exact strip_idem _

/-- C3 counterexample: the clean name is not a fixed point of parsing.
Only the first dose match is removed, so the clean name of the
two-ingredient string "PARACETAMOL 500 MG CAFEINA 50 MG" still contains
"50 MG"; re-parsing extracts dose 50 and changes the clean name. -/
theorem C3_clean_name_not_fixed_point :
    (parse (.ofStr (parse (.ofStr "PARACETAMOL 500 MG CAFEINA 50 MG".data)).clean_name)).dose_val
        = some "50".data ∧
    (parse (.ofStr (parse (.ofStr "PARACETAMOL 500 MG CAFEINA 50 MG".data)).clean_name)).clean_name
        ≠ (parse (.ofStr "PARACETAMOL 500 MG CAFEINA 50 MG".data)).clean_name :=
  ⟨by decide, by decide⟩

/-- C3 amended: the clean name is a fixed point of parsing whenever
re-parsing finds no further laboratory, dose or quantity pattern in it and
the clean-up pass leaves it unchanged; then the re-parse returns the same
clean name with null dose and quantity fields and the default lab. -/
theorem C3_clean_name_fixed_point_conditional :
    ∀ s : List Char,
      findLab (parse (.ofStr s)).clean_name = none →
      findDose (parse (.ofStr s)).clean_name = none →
      findQty true (parse (.ofStr s)).clean_name = none →
      parseClean (parse (.ofStr s)).clean_name = (parse (.ofStr s)).clean_name →
      parse (.ofStr (parse (.ofStr s)).clean_name) =
        { original := (parse (.ofStr s)).clean_name,
          lab := "NO IDENTIFICADO".data,
          dose_val := none, dose_unit := none, qty_val := none, qty_unit := none,
          clean_name := (parse (.ofStr s)).clean_name, brand_type := none } := by
  intro s h1 h2 h3 h4
  set c1 := (parse (.ofStr s)).clean_name with hc1
  have hup : ∀ c ∈ c1, c.toUpper = c := clean_name_upFixed s
  have hstrip : strip c1 = c1 := by
    have e : c1 = parseClean (parseT3 (parseT2 (parseT1 (parseT0 s)))) := rfl
    rw [e, strip_parseClean]
  have ht0 : parseT0 c1 = c1 := by
    unfold parseT0
    rw [upperL_eq_self c1 hup, hstrip]
  have e0 : parse (.ofStr c1) =
      { original := parseT0 c1, lab := parseLab (parseT0 c1),
        dose_val := (findDose (parseT1 (parseT0 c1))).map (fun m => m.2.1),
        dose_unit := (findDose (parseT1 (parseT0 c1))).map (fun m => m.2.2),
        qty_val := (findQty true (parseT2 (parseT1 (parseT0 c1)))).map (fun m => m.2.1),
        qty_unit := (findQty true (parseT2 (parseT1 (parseT0 c1)))).map (fun m => m.2.2),
        clean_name := parseClean (parseT3 (parseT2 (parseT1 (parseT0 c1)))),
        brand_type := none } := rfl
  have eLab : parseLab c1 = "NO IDENTIFICADO".data := by unfold parseLab; rw [h1]
  have e1 : parseT1 c1 = c1 := by unfold parseT1; rw [h1]
  have e2 : parseT2 c1 = c1 := by unfold parseT2; rw [h2]
  have e3 : parseT3 c1 = c1 := by unfold parseT3; rw [h3]
  rw [e0, ht0, eLab, e1, e2, e3, h2, h3, h4]
  simp

/-- Witness for the amended C3 on the standard test string of the repo. -/
theorem C3_clean_name_fixed_point_conditional_witness :
    findLab (parse (.ofStr "ACICLOVIR 200 MG X25 COMP LAB CHILE.".data)).clean_name = none ∧
    findDose (parse (.ofStr "ACICLOVIR 200 MG X25 COMP LAB CHILE.".data)).clean_name = none ∧
    findQty true (parse (.ofStr "ACICLOVIR 200 MG X25 COMP LAB CHILE.".data)).clean_name = none ∧
    parseClean (parse (.ofStr "ACICLOVIR 200 MG X25 COMP LAB CHILE.".data)).clean_name =
      (parse (.ofStr "ACICLOVIR 200 MG X25 COMP LAB CHILE.".data)).clean_name ∧
    parse (.ofStr (parse (.ofStr "ACICLOVIR 200 MG X25 COMP LAB CHILE.".data)).clean_name) =
      { original := (parse (.ofStr "ACICLOVIR 200 MG X25 COMP LAB CHILE.".data)).clean_name,
        lab := "NO IDENTIFICADO".data,
        dose_val := none, dose_unit := none, qty_val := none, qty_unit := none,
        clean_name := (parse (.ofStr "ACICLOVIR 200 MG X25 COMP LAB CHILE.".data)).clean_name,
        brand_type := none } :=
  ⟨by decide, by decide, by decide, by decide,
    C3_clean_name_fixed_point_conditional _ (by decide) (by decide) (by decide) (by decide)⟩

/-- C5: parse never fails (it is a total function of this model); for a
non-string input and for the empty string it returns null dose and
quantity fields and lab "NO IDENTIFICADO". -/
theorem C5_parse_degrades_to_defaults :
    (∀ r : List Char,
      (parse (.nonStr r)).dose_val = none ∧
      (parse (.nonStr r)).dose_unit = none ∧
      (parse (.nonStr r)).qty_val = none ∧
      (parse (.nonStr r)).qty_unit = none ∧
      (parse (.nonStr r)).lab = "NO IDENTIFICADO".data) ∧
    ((parse (.ofStr [])).dose_val = none ∧
      (parse (.ofStr [])).dose_unit = none ∧
      (parse (.ofStr [])).qty_val = none ∧
      (parse (.ofStr [])).qty_unit = none ∧
      (parse (.ofStr [])).lab = "NO IDENTIFICADO".data ∧
      (parse (.ofStr [])).clean_name = []) :=
  ⟨fun _ => ⟨rfl, rfl, rfl, rfl, rfl⟩, by decide⟩

lemma qsub_eq_sub (a b : Rat) : qsub a b = a - b := by
  unfold qsub
  conv_rhs => rw [← Rat.num_divInt_den a, ← Rat.num_divInt_den b]
  rw [Rat.divInt_sub_divInt _ _
    (Int.natCast_ne_zero.mpr (Rat.den_ne_zero a))
    (Int.natCast_ne_zero.mpr (Rat.den_ne_zero b))]

lemma qdiv_eq_div (a b : Rat) : qdiv a b = a / b := by
  unfold qdiv
  conv_rhs => rw [← Rat.num_divInt_den a, ← Rat.num_divInt_den b]
  rw [Rat.divInt_div_divInt]

/-- C8: the price-per-unit computation never raises (it is a total
function of this model); when both the price, via
`float(str(price).replace(',', '.'))`, and the quantity, via `float(qty)`,
coerce to numbers and the quantity is positive it returns
`round(price / quantity, 2)`, and in every other case it returns 0. -/
theorem C8_ppum_never_raises :
    ∀ pv qv : PVal,
      calculate_ppum pv qv =
        match floatOfStrComma pv, floatOfVal qv with
        | some p, some q => if 0 < q then round2 (qdiv p q) else 0
        | some _, none => 0
        | none, _ => 0 := by
  intro pv qv
  unfold calculate_ppum
  rcases h1 : floatOfStrComma pv with _ | p
  · simp only [h1]
  · rcases h2 : floatOfVal qv with _ | q
    · simp only [h1, h2]
    · simp only [h1, h2]
      by_cases h : (0 : Rat) < q
      · simp only [h, if_true]
      · simp only [h, if_false]

/-- C7: every record emitted by the bioequivalence classifier satisfies
the invariant that a generic is bioequivalent: the generic path sets both
flags together, and a brand match sets bioequivalent true while forcing
generic false. -/
theorem C7_generic_implies_bioequivalent :
    ∀ cleanName producto : List Char,
      (enrich_compliance cleanName producto).is_generic = true →
      (enrich_compliance cleanName producto).is_bioequivalent = true := by
  intro cnm p h
  simp only [enrich_compliance] at h ⊢
  rcases hbm : (match isp_db_mock.find? (fun e => subStr e.key (effName cnm p)) with
    | some e => some e
    | none =>
      isp_db_mock.find? (fun e => e.brands.any (fun b => subStr b (effName cnm p)))) with _ | e
  · rw [hbm] at h
    simp at h
  · rw [hbm] at h ⊢
    simp only at h ⊢
    by_cases hbr : (e.brands.any fun b => subStr b (effName cnm p)) = true
    · simp [hbr] at h
    · simp only [hbr, if_false, Bool.not_eq_true] at h ⊢
      by_cases hg : (subStr e.active_ingredient (effName cnm p)
          && !subStr "COMPUESTO".data (effName cnm p)) = true
      · simp only [hg, if_true] at h ⊢
        by_cases hr : 60 < (if isPrefixL e.active_ingredient (effName cnm p) then 100 else 0)
        · simp only [hr, if_true]
          rfl
        · simp only [hr, if_false] at h
          simp at h
      · simp only [hg, if_false, Bool.not_eq_true] at h
        simp at h

/-- Witness for C7: a concrete generic row is classified generic and
bioequivalent. -/
theorem C7_generic_implies_bioequivalent_witness :
    (enrich_compliance "PARACETAMOL 500 MG".data []).is_generic = true ∧
    (enrich_compliance "PARACETAMOL 500 MG".data []).is_bioequivalent = true :=
  ⟨by decide, C7_generic_implies_bioequivalent _ _ (by decide)⟩

/-- C6: when no active-ingredient key is contained in the normalized
product name, but some registry brand name is, the classifier resolves the
active ingredient to that entry, so the output is not DESCONOCIDO. -/
theorem C6_reverse_brand_lookup :
    ∀ cleanName producto : List Char,
      (∀ e ∈ isp_db_mock, subStr e.key (effName cleanName producto) = false) →
      (∃ e ∈ isp_db_mock, ∃ b ∈ e.brands,
        subStr b (effName cleanName producto) = true) →
      (enrich_compliance cleanName producto).active_ingredient ≠ "DESCONOCIDO".data ∧
      ∃ e ∈ isp_db_mock,
        (∃ b ∈ e.brands, subStr b (effName cleanName producto) = true) ∧
        (enrich_compliance cleanName producto).active_ingredient =
          e.active_ingredient := by
  intro cnm p h1 h2
  have hk : isp_db_mock.find? (fun e => subStr e.key (effName cnm p)) = none :=
    List.find?_eq_none.mpr (fun e he => by simp [h1 e he])
  have hb : (isp_db_mock.find?
      (fun e => e.brands.any (fun b => subStr b (effName cnm p)))).isSome := by
    rw [List.find?_isSome]
    obtain ⟨e, he, b, hbmem, hbsub⟩ := h2
    exact ⟨e, he, by
      simp only [List.any_eq_true]
      exact ⟨b, hbmem, hbsub⟩⟩
  obtain ⟨e2, he2⟩ := Option.isSome_iff_exists.mp hb
  have hmem := List.mem_of_find?_eq_some he2
  have hpred := List.find?_some he2
  have hact : (enrich_compliance cnm p).active_ingredient = e2.active_ingredient := by
    simp only [enrich_compliance]
    rw [hk, he2]
  refine ⟨?_, e2, hmem, ?_, hact⟩
  · rw [hact]
    fin_cases hmem <;> decide
  · simpa [List.any_eq_true] using hpred

/-- Witness for C6: PANADOL matches no key but is a registered brand and
resolves to PARACETAMOL. -/
theorem C6_reverse_brand_lookup_witness :
    (∀ e ∈ isp_db_mock, subStr e.key (effName "PANADOL".data []) = false) ∧
    (∃ e ∈ isp_db_mock, ∃ b ∈ e.brands,
      subStr b (effName "PANADOL".data []) = true) ∧
    (enrich_compliance "PANADOL".data []).active_ingredient ≠ "DESCONOCIDO".data ∧
    ∃ e ∈ isp_db_mock,
      (∃ b ∈ e.brands, subStr b (effName "PANADOL".data []) = true) ∧
      (enrich_compliance "PANADOL".data []).active_ingredient =
        e.active_ingredient :=
  ⟨by decide, by decide,
    (C6_reverse_brand_lookup _ _ (by decide) (by decide)).1,
    (C6_reverse_brand_lookup _ _ (by decide) (by decide)).2⟩

lemma rankPriceLe_rank_le (a b : RankedRow) (h : rankPriceLe a b = true) :
    a.rank ≤ b.rank := by
  simp only [rankPriceLe, Bool.or_eq_true, Bool.and_eq_true, decide_eq_true_eq,
    beq_iff_eq] at h
  rcases h with h | ⟨h, _⟩
  · exact Nat.le_of_lt h
  · exact Nat.le_of_eq h

/-- C1: every row of a buscar result carries the rank of the
first-matching-rule cascade, and the result is sorted by rank ascending
then price ascending, so a row never precedes one of smaller rank. -/
theorem C1_ranking_rule_and_sort_order :
    ∀ (rawQuery : List Char) (df : List InvRow) (rs : List RankedRow),
      buscar rawQuery df = .results rs →
      (∀ r ∈ rs, r.rank = calculate_rank (strip (upperL rawQuery)) r.row) ∧
      rs.Pairwise (fun a b => rankPriceLe a b = true) ∧
      rs.Pairwise (fun a b => a.rank ≤ b.rank) := by
  intro q df rs h
  simp only [buscar] at h
  split at h
  · exact absurd h (by simp)
  · injection h with h2
    subst h2
    refine ⟨?_, List.sorted_insertionSort _ _,
      (List.sorted_insertionSort _ _).imp (fun hab => rankPriceLe_rank_le _ _ hab)⟩
    intro r hr
    have hmem := (List.perm_insertionSort _ _).mem_iff.mp hr
    rcases List.mem_map.mp hmem with ⟨row, _, heq⟩
    rw [← heq]

/-- Witness for C1: the three-row scenario of the specification (generic
1000, brand 900, requested 500) is returned in rank order 1, 2, 3. -/
theorem C1_ranking_rule_and_sort_order_witness :
    (∀ r ∈ demoRanked,
      r.rank = calculate_rank (strip (upperL "PARACETAMOL".data)) r.row) ∧
    demoRanked.Pairwise (fun a b => rankPriceLe a b = true) ∧
    demoRanked.Pairwise (fun a b => a.rank ≤ b.rank) :=
  C1_ranking_rule_and_sort_order "PARACETAMOL".data demoRows demoRanked (by decide)

lemma subStr_nil (t : List Char) : subStr [] t = true := by
  cases t <;> simp [subStr, isPrefixL]

/-- C2: a savings figure is produced only for rank-1 rows and is positive;
the reference price exists for every non-empty result list; and for every
rank-1 row the displayed savings, read as 0 when absent, equals
max(0, reference price − row price) — hence computed savings are never
negative. -/
theorem C2_savings_rule :
    ∀ (results : List RankedRow) (q : List Char) (r : RankedRow),
      (∀ v, ahorro results q r = some v → r.rank = 1 ∧ 0 ≤ v) ∧
      (r ∈ results → ∃ rp, ref_price results q = some rp) ∧
      (∀ rp, ref_price results q = some rp → r.rank = 1 →
        (ahorro results q r).getD 0 = max 0 (qsub rp r.row.precio)) := by
  intro results q r
  refine ⟨?_, ?_, ?_⟩
  · intro v hv
    unfold ahorro at hv
    rcases hrp : ref_price results q with _ | rp
    · rw [hrp] at hv
      cases hv
    · rw [hrp] at hv
      simp only at hv
      by_cases hc : (r.rank == 1 && decide (r.row.precio < rp)) = true
      · rw [if_pos hc] at hv
        simp only [Bool.and_eq_true, beq_iff_eq, decide_eq_true_eq] at hc
        injection hv with hv2
        refine ⟨hc.1, ?_⟩
        rw [← hv2, qsub_eq_sub]
        linarith [hc.2]
      · rw [if_neg (by simpa using hc)] at hv
        cases hv
  · intro hr
    unfold ref_price
    rcases results with _ | ⟨b, t2⟩
    · cases hr
    · rcases hf : (b :: t2).filter (fun x => subStr q x.row.clean_name) with _ | ⟨a, t⟩
      · rw [hf]
        exact ⟨b.row.precio, rfl⟩
      · rw [hf]
        exact ⟨a.row.precio, rfl⟩
  · intro rp hrp hrank
    unfold ahorro
    rw [hrp]
    simp only
    by_cases hlt : r.row.precio < rp
    · rw [if_pos (by simp [hrank, hlt])]
      simp only [Option.getD_some]
      rw [qsub_eq_sub, max_eq_right (by linarith : (0 : Rat) ≤ rp - r.row.precio)]
    · rw [if_neg (by simp [hlt])]
      simp only [Option.getD_none]
      rw [qsub_eq_sub, max_eq_left (by linarith : rp - r.row.precio ≤ 0)]

/-- Witness for C2: with reference row at 2000, the rank-1 row at 1000 is
granted savings 1000 = max(0, 2000 − 1000). -/
theorem C2_savings_rule_witness :
    ((⟨rowA, 1⟩ : RankedRow).rank = 1 ∧ (0 : Rat) ≤ qsub 2000 1000) ∧
    (∃ rp, ref_price renderDemo "FORTE".data = some rp) ∧
    (ahorro renderDemo "FORTE".data ⟨rowA, 1⟩).getD 0 =
      max 0 (qsub 2000 (⟨rowA, 1⟩ : RankedRow).row.precio) :=
  ⟨(C2_savings_rule renderDemo "FORTE".data ⟨rowA, 1⟩).1 (qsub 2000 1000) (by decide),
   (C2_savings_rule renderDemo "FORTE".data ⟨rowA, 1⟩).2.1 (by decide),
   (C2_savings_rule renderDemo "FORTE".data ⟨rowA, 1⟩).2.2 2000 (by decide) rfl⟩

/-- C9 counterexample: on the empty query buscar does not report no-match
and does not return an empty result set; the empty string is a substring
of every clean name, so the whole demo inventory is ranked and returned. -/
theorem C9_empty_query_returns_results :
    buscar [] demoRows = .results demoRanked ∧ demoRanked ≠ [] :=
  ⟨by decide, by decide⟩

/-- C9 amended: buscar reports no-match for the empty query exactly when
the inventory is empty — otherwise every row matches and a ranked result
set is returned; the HTTP route instead rejects queries shorter than two
characters with a validation error before searching. -/
theorem C9_empty_query_behavior :
    (∀ df : List InvRow, buscar [] df = .noMatch ↔ df = []) ∧
    api_min_length_ok [] = false := by
  constructor
  · intro df
    constructor
    · intro h
      rcases df with _ | ⟨b, t⟩
      · rfl
      · exfalso
        simp only [buscar] at h
        have hfil : List.filter
            (fun r => containsCI (strip (upperL ([] : List Char))) r.clean_name)
            (b :: t) = b :: t := by
          apply List.filter_eq_self.mpr
          intro a _
          have h0 : strip (upperL ([] : List Char)) = [] := rfl
          rw [h0]
          simp [containsCI, upperL, subStr_nil]
        rw [hfil] at h
        simp at h
    · intro h
      subst h
      rfl
  · rfl

/-- Witness for the amended C9: the no-match report does occur on an empty
inventory. -/
theorem C9_empty_query_behavior_witness :
    buscar [] ([] : List InvRow) = .noMatch :=
  (C9_empty_query_behavior.1 []).mpr rfl
